import Mathlib

/-!
Verification of the SCALE decoder stream (ScaleDecoderStream) against its
natural-language specification.

The decoder is a cursor over a borrowed byte span.  We embed it shallowly:
bytes are `Nat` values (inputs of interest are < 256), the stream state is
the span together with the current index, and every decoding operation is a
function from a state to a result paired with the state left behind (the
C++ stream object survives a raised error, with its cursor at the point of
failure, so the state is returned on the error path as well).
-/

deriving instance DecidableEq for Except

namespace Scale

/-- The closed set of decode/encode error kinds of the library. -/
inductive DecodeError where
  | NOT_ENOUGH_DATA
  | UNEXPECTED_VALUE
  | WRONG_TYPE_INDEX
  | TOO_MANY_ITEMS
  | VALUE_OUT_OF_RANGE
  | EXTRA_DATA
  | UNSUPPORTED_SHAPE
deriving DecidableEq, Repr

/-- The decoder state: the borrowed byte span `span_` and the read cursor
`current_index_` (fields `span_` / `current_index_` of `ScaleDecoderStream`). -/
structure ScaleDecoderStream where
  span : List Nat
  current_index : Nat
deriving DecidableEq, Repr

/-- A decoding operation: consumes from the stream, yields a value or an
error, and in both cases the stream state it leaves behind. -/
abbrev Decoder (α : Type) := ScaleDecoderStream → Except DecodeError α × ScaleDecoderStream

/-- Modelled from the spec: `hasMore` is declared in the header but its body
is not in src; per §4.9, `has_more(n)` reports whether at least n bytes
remain and does not advance the cursor (it takes the state immutably). -/
def hasMore (s : ScaleDecoderStream) (n : Nat) : Bool :=
  decide (s.current_index + n ≤ s.span.length)

/-- Modelled from the spec: `nextByte` is declared in the header but its body
is not in src; per §4.9, `next_byte()` returns the byte at the cursor and
advances by one, failing with `NOT_ENOUGH_DATA` at the end of the span. -/
def nextByte : Decoder Nat := fun s =>
  match s.span[s.current_index]? with
  | some b => (.ok b, ⟨s.span, s.current_index + 1⟩)
  | none => (.error .NOT_ENOUGH_DATA, s)

/-- Modelled from the spec: `decodeBool` is declared in the header but its
body is not in src; per §4.1, one byte, 0x00 is false, 0x01 is true, any
other byte fails with `UNEXPECTED_VALUE`. -/
def decodeBool : Decoder Bool := fun s =>
  match nextByte s with
  | (.error e, s1) => (.error e, s1)
  | (.ok b, s1) =>
    if b = 0 then (.ok false, s1)
    else if b = 1 then (.ok true, s1)
    else (.error .UNEXPECTED_VALUE, s1)

/-- Modelled from the spec: `decodeOptionalBool` is declared in the header
but its body is not in src; per §4.3, the three inhabited values are packed
into one byte, 0 = absent, 1 = true, 2 = false, and a byte > 2 fails with
`UNEXPECTED_VALUE`. -/
def decodeOptionalBool : Decoder (Option Bool) := fun s =>
  match nextByte s with
  | (.error e, s1) => (.error e, s1)
  | (.ok b, s1) =>
    if b = 0 then (.ok none, s1)
    else if b = 1 then (.ok (some true), s1)
    else if b = 2 then (.ok (some false), s1)
    else (.error .UNEXPECTED_VALUE, s1)

/-- Reads `n` bytes, least-significant first, into a natural number
(shared helper of the compact modes). -/
def readBytesLE : Nat → Decoder Nat
  | 0 => fun s => (.ok 0, s)
  | n + 1 => fun s =>
    match nextByte s with
    | (.error e, s1) => (.error e, s1)
    | (.ok b, s1) =>
      match readBytesLE n s1 with
      | (.error e, s2) => (.error e, s2)
      | (.ok rest, s2) => (.ok (b + 256 * rest), s2)

/-- Modelled from the spec: `operator>>(CompactInteger&)` is declared in the
header but its body is not in src; per §4.2, the low two bits of the first
byte select the mode: mode 0 holds N in the high 6 bits; mode 1 spans two
little-endian bytes holding a 14-bit N above the mode bits; mode 2 spans
four little-endian bytes holding a 30-bit N above the mode bits; mode 3
holds a byte count M = high-6-bits + 4 followed by M little-endian value
bytes.  The default policy accepts non-minimal encodings, and a mode-3
header asking for more bytes than remain fails with `NOT_ENOUGH_DATA`. -/
def decodeCompact : Decoder Nat := fun s =>
  match nextByte s with
  | (.error e, s1) => (.error e, s1)
  | (.ok b, s1) =>
    if b % 4 = 0 then (.ok (b / 4), s1)
    else if b % 4 = 1 then
      match nextByte s1 with
      | (.error e, s2) => (.error e, s2)
      | (.ok b1, s2) => (.ok (b / 4 + 64 * b1), s2)
    else if b % 4 = 2 then
      match readBytesLE 3 s1 with
      | (.error e, s2) => (.error e, s2)
      | (.ok rest, s2) => (.ok (b / 4 + 64 * rest), s2)
    else
      readBytesLE (b / 4 + 4) s1

/-- The element loop shared by the container decoders: decodes `n` elements
in index order, stopping at the first failure. -/
def decodeElems (elem : Decoder α) : Nat → Decoder (List α)
  | 0 => fun s => (.ok [], s)
  | n + 1 => fun s =>
    match elem s with
    | (.error e, s1) => (.error e, s1)
    | (.ok a, s1) =>
      match decodeElems elem n s1 with
      | (.error e, s2) => (.error e, s2)
      | (.ok as, s2) => (.ok (a :: as), s2)

/-- Embeds `decodeVectorLike` (vector / deque): decodes a compact length,
resizes a local container to that many default elements (allocation in this
model always succeeds, so the `bad_alloc` branch that raises
`TOO_MANY_ITEMS` is never taken), decodes each element into the local
container in index order, and only then moves the local container into the
destination `v`.  On any failure the destination is returned untouched. -/
def decodeVectorLikeInto (elem : Decoder α) (v : List α) (s : ScaleDecoderStream) :
    Except DecodeError Unit × List α × ScaleDecoderStream :=
  match decodeCompact s with
  | (.error e, s1) => (.error e, v, s1)
  | (.ok item_count, s1) =>
    match decodeElems elem item_count s1 with
    | (.error e, s2) => (.error e, v, s2)
    | (.ok container, s2) => (.ok (), container, s2)

/-- Embeds `operator>>(std::vector<bool>&)`: decodes a compact length, then
that many single-byte booleans pushed onto a local container, moved into the
destination only after the loop completes. -/
def decodeVectorBoolInto (v : List Bool) (s : ScaleDecoderStream) :
    Except DecodeError Unit × List Bool × ScaleDecoderStream :=
  match decodeCompact s with
  | (.error e, s1) => (.error e, v, s1)
  | (.ok item_count, s1) =>
    match decodeElems decodeBool item_count s1 with
    | (.error e, s2) => (.error e, v, s2)
    | (.ok container, s2) => (.ok (), container, s2)

/-- Embeds the `C::is_static_collection` branch of the collection
`operator>>`: decodes a fixed number of elements into a local container and
moves it into the destination only after every element decoded. -/
def decodeStaticInto (elem : Decoder α) (n : Nat) (c : List α) (s : ScaleDecoderStream) :
    Except DecodeError Unit × List α × ScaleDecoderStream :=
  match decodeElems elem n s with
  | (.error e, s1) => (.error e, c, s1)
  | (.ok container, s1) => (.ok (), container, s1)

/-- Embeds `operator>>(std::array<T, size>&)`: no length prefix, exactly
`size` elements decoded in index order. -/
def decodeArray (elem : Decoder α) (n : Nat) : Decoder (List α) :=
  decodeElems elem n

/-- Embeds `operator>>(std::pair<F, S>&)`: first component then second. -/
def decodePair (df : Decoder α) (dg : Decoder β) : Decoder (α × β) := fun s =>
  match df s with
  | (.error e, s1) => (.error e, s1)
  | (.ok a, s1) =>
    match dg s1 with
    | (.error e, s2) => (.error e, s2)
    | (.ok b, s2) => (.ok (a, b), s2)

/-- Embeds `emplace` on a map-like container (`std::map` / unordered map):
the pair is inserted only when no element with its key is already present;
an existing binding is never overwritten.  The container is an association
list without duplicate keys. -/
def emplace [DecidableEq κ] (m : List (κ × ν)) (p : κ × ν) : List (κ × ν) :=
  if m.any (fun q => q.1 = p.1) then m else m ++ [p]

/-- The element loop of the map `operator>>`: decodes `n` pairs, folding
each through `emplace` into the container built so far. -/
def decodeMapElems [DecidableEq κ] (elem : Decoder (κ × ν)) :
    Nat → List (κ × ν) → Decoder (List (κ × ν))
  | 0, container => fun s => (.ok container, s)
  | n + 1, container => fun s =>
    match elem s with
    | (.error e, s1) => (.error e, s1)
    | (.ok p, s1) => decodeMapElems elem n (emplace container p) s1

/-- Embeds the map-like `operator>>`: decodes a compact length, then that
many pairs `emplace`d into a local container, moved into the destination
only after the loop completes. -/
def decodeMapInto [DecidableEq κ] (elem : Decoder (κ × ν)) (c : List (κ × ν))
    (s : ScaleDecoderStream) :
    Except DecodeError Unit × List (κ × ν) × ScaleDecoderStream :=
  match decodeCompact s with
  | (.error e, s1) => (.error e, c, s1)
  | (.ok item_count, s1) =>
    match decodeMapElems elem item_count [] s1 with
    | (.error e, s2) => (.error e, c, s2)
    | (.ok container, s2) => (.ok (), container, s2)

/-- Lookup in the map model: the value of the first (and, as `emplace`
never duplicates a key, only) binding of `k`. -/
def mapLookup [DecidableEq κ] (m : List (κ × ν)) (k : κ) : Option ν :=
  (m.find? (fun p => p.1 = k)).map Prod.snd

/-- Embeds `operator>>(std::optional<T>&)` for non-boolean `T`: a boolean
discriminant byte read through `decodeBool`, then the payload when it was
true. -/
def decodeOptional (elem : Decoder α) : Decoder (Option α) := fun s =>
  match decodeBool s with
  | (.error e, s1) => (.error e, s1)
  | (.ok has_value, s1) =>
    if has_value then
      match elem s1 with
      | (.error e, s2) => (.error e, s2)
      | (.ok a, s2) => (.ok (some a), s2)
    else (.ok none, s1)

/-- Embeds `operator>>(boost::variant<Ts...>&)`: one index byte, then
`WRONG_TYPE_INDEX` when the index reaches the variant count, otherwise the
payload is decoded by the decoder at that position of the declared list,
the result tagged with the index. -/
def decodeVariant (variants : List (Decoder α)) : Decoder (Nat × α) := fun s =>
  match nextByte s with
  | (.error e, s1) => (.error e, s1)
  | (.ok type_index, s1) =>
    if h : type_index < variants.length then
      match (variants.get ⟨type_index, h⟩) s1 with
      | (.error e, s2) => (.error e, s2)
      | (.ok val, s2) => (.ok (type_index, val), s2)
    else (.error .WRONG_TYPE_INDEX, s1)

/-- The pointee held by a decoded `std::shared_ptr`. -/
structure SharedPtr (α : Type) where
  pointee : α
deriving DecidableEq, Repr

/-- The pointee held by a decoded `std::unique_ptr`. -/
structure UniquePtr (α : Type) where
  pointee : α
deriving DecidableEq, Repr

/-- Embeds `operator>>(std::shared_ptr<T>&)`: a fresh default pointee is
allocated and the stream decodes straight into it; no wire data beyond the
pointee's own encoding is consumed. -/
def decodeSharedPtr (elem : Decoder α) : Decoder (SharedPtr α) := fun s =>
  match elem s with
  | (.error e, s1) => (.error e, s1)
  | (.ok a, s1) => (.ok ⟨a⟩, s1)

/-- Embeds `operator>>(std::unique_ptr<T>&)`: identical to the shared-ptr
overload but for the ownership wrapper. -/
def decodeUniquePtr (elem : Decoder α) : Decoder (UniquePtr α) := fun s =>
  match elem s with
  | (.error e, s1) => (.error e, s1)
  | (.ok a, s1) => (.ok ⟨a⟩, s1)

/-- The stream-safety contract of claim C8 for a decoding operation: it
never mutates the span and never moves the cursor backwards, whether it
succeeds or fails. -/
def CursorMonotone {α : Type} (d : Decoder α) : Prop :=
  ∀ s : ScaleDecoderStream,
    ((d s).2).span = s.span ∧ s.current_index ≤ ((d s).2).current_index

/-- The same contract for the destination-passing container decoders. -/
def CursorMonotoneInto {α : Type}
    (d : List α → ScaleDecoderStream →
      Except DecodeError Unit × List α × ScaleDecoderStream) : Prop :=
  ∀ (v : List α) (s : ScaleDecoderStream),
    ((d v s).2.2).span = s.span ∧ s.current_index ≤ ((d v s).2.2).current_index

/-- C1: the length-prefixed container decoders perform no byte-budget check
(`N > remaining / minimum_element_size` is never tested) and eagerly resize
to N elements before decoding: on bytes `10 01` (declared length 4, one
remaining byte) both vector-like decoding over one-byte elements and
`vector<bool>` decoding fail with `NOT_ENOUGH_DATA` while decoding an
element, not with `TOO_MANY_ITEMS` up front as the claim requires. -/
theorem C1_eager_alloc_not_budget_checked :
    decodeVectorLikeInto nextByte [] ⟨[16, 1], 0⟩
      = (.error .NOT_ENOUGH_DATA, [], ⟨[16, 1], 2⟩) ∧
    decodeVectorBoolInto [] ⟨[16, 1], 0⟩
      = (.error .NOT_ENOUGH_DATA, [], ⟨[16, 1], 2⟩) := by decide

/-- C6: with byte `b` at the cursor, decoding a boolean consumes exactly one
byte; 0 yields false, 1 yields true, and any other byte fails with
`UNEXPECTED_VALUE` (the cursor in every case left one past the byte read). -/
theorem C6_bool (s : ScaleDecoderStream) (b : Nat)
    (h : s.span[s.current_index]? = some b) :
    (b = 0 → decodeBool s = (.ok false, ⟨s.span, s.current_index + 1⟩)) ∧
    (b = 1 → decodeBool s = (.ok true, ⟨s.span, s.current_index + 1⟩)) ∧
    (b ≠ 0 → b ≠ 1 →
      decodeBool s = (.error .UNEXPECTED_VALUE, ⟨s.span, s.current_index + 1⟩)) := by
  refine ⟨fun h0 => ?_, fun h1 => ?_, fun h0 h1 => ?_⟩
  · simp [decodeBool, nextByte, h, h0]
  · simp [decodeBool, nextByte, h, h1]
  · simp [decodeBool, nextByte, h, h0, h1]

/-- C6 witness: byte 0x01 decodes to true, consuming one byte. -/
theorem C6_witness : decodeBool ⟨[1], 0⟩ = (.ok true, ⟨[1], 1⟩) :=
  (C6_bool ⟨[1], 0⟩ 1 rfl).2.1 rfl

/-- C3: with byte `b` at the cursor, decoding an optional boolean consumes
exactly one byte; 0 yields absent, 1 yields present true, 2 yields present
false, and any byte greater than 2 fails with `UNEXPECTED_VALUE`. -/
theorem C3_optional_bool (s : ScaleDecoderStream) (b : Nat)
    (h : s.span[s.current_index]? = some b) :
    (b = 0 → decodeOptionalBool s = (.ok none, ⟨s.span, s.current_index + 1⟩)) ∧
    (b = 1 → decodeOptionalBool s = (.ok (some true), ⟨s.span, s.current_index + 1⟩)) ∧
    (b = 2 → decodeOptionalBool s = (.ok (some false), ⟨s.span, s.current_index + 1⟩)) ∧
    (2 < b →
      decodeOptionalBool s = (.error .UNEXPECTED_VALUE, ⟨s.span, s.current_index + 1⟩)) := by
  refine ⟨fun h0 => ?_, fun h1 => ?_, fun h2 => ?_, fun hgt => ?_⟩
  · simp [decodeOptionalBool, nextByte, h, h0]
  · simp [decodeOptionalBool, nextByte, h, h1]
  · simp [decodeOptionalBool, nextByte, h, h2]
  · simp [decodeOptionalBool, nextByte, h,
      show b ≠ 0 by omega, show b ≠ 1 by omega, show b ≠ 2 by omega]

/-- C3 witness: byte 0x02 decodes to present false, consuming one byte. -/
theorem C3_witness : decodeOptionalBool ⟨[2], 0⟩ = (.ok (some false), ⟨[2], 1⟩) :=
  (C3_optional_bool ⟨[2], 0⟩ 2 rfl).2.2.1 rfl

/-- C5: with byte `b` at the cursor, decoding an optional of a non-boolean
shape reads the one-byte discriminant: 0 yields absent with no further bytes
consumed for the payload, 1 yields the payload decoded from the next
position (its value wrapped in `some`, its bytes and error behaviour
unchanged), and any other discriminant fails with `UNEXPECTED_VALUE`. -/
theorem C5_optional (α : Type) (elem : Decoder α) (s : ScaleDecoderStream) (b : Nat)
    (h : s.span[s.current_index]? = some b) :
    (b = 0 → decodeOptional elem s = (.ok none, ⟨s.span, s.current_index + 1⟩)) ∧
    (b = 1 → decodeOptional elem s =
      ((elem ⟨s.span, s.current_index + 1⟩).1.map some,
        (elem ⟨s.span, s.current_index + 1⟩).2)) ∧
    (b ≠ 0 → b ≠ 1 →
      decodeOptional elem s = (.error .UNEXPECTED_VALUE, ⟨s.span, s.current_index + 1⟩)) := by
  refine ⟨fun h0 => ?_, fun h1 => ?_, fun h0 h1 => ?_⟩
  · simp [decodeOptional, decodeBool, nextByte, h, h0]
  · rcases he : elem ⟨s.span, s.current_index + 1⟩ with ⟨r, s2⟩
    cases r <;> simp [decodeOptional, decodeBool, nextByte, h, h1, he, Except.map]
  · simp [decodeOptional, decodeBool, nextByte, h, h0, h1]

/-- C5 witness: discriminant 1 followed by byte 42 decoded as an optional
one-byte integer yields present 42, consuming two bytes. -/
theorem C5_witness :
    decodeOptional nextByte ⟨[1, 42], 0⟩ = (.ok (some 42), ⟨[1, 42], 2⟩) := by
  have h := (C5_optional Nat nextByte ⟨[1, 42], 0⟩ 1 rfl).2.1 rfl
  rw [h]; rfl

/-- C9: pointer-wrapped decodings are wire-transparent: decoding a shared or
unique pointer runs exactly the pointee's decoder, consuming the same bytes,
failing with the same error, and producing a pointee equal to the directly
decoded value. -/
theorem C9_pointer_transparent (α : Type) (elem : Decoder α) (s : ScaleDecoderStream) :
    decodeSharedPtr elem s = ((elem s).1.map SharedPtr.mk, (elem s).2) ∧
    decodeUniquePtr elem s = ((elem s).1.map UniquePtr.mk, (elem s).2) := by
  rcases he : elem s with ⟨r, s1⟩
  cases r <;> simp [decodeSharedPtr, decodeUniquePtr, he, Except.map]

/-- The byte reader can fail only with `NOT_ENOUGH_DATA`, never with a
type-index error. -/
theorem nextByte_no_wrong_index (s : ScaleDecoderStream) :
    (nextByte s).1 ≠ .error .WRONG_TYPE_INDEX := by
  unfold nextByte
  rcases s.span[s.current_index]? with _ | b <;> simp

/-- C4: with index byte `i` at the cursor, variant decoding reads that one
byte and fails with `WRONG_TYPE_INDEX` exactly when `i` reaches the variant
count (the iff direction under the assumption that no payload decoder
itself reports a wrong type index); when `i` is in range the payload is
decoded by the i-th decoder of the declared list (zero-based). -/
theorem C4_variant_index (α : Type) (variants : List (Decoder α)) (s : ScaleDecoderStream)
    (i : Nat) (h : s.span[s.current_index]? = some i) :
    (variants.length ≤ i →
      decodeVariant variants s = (.error .WRONG_TYPE_INDEX, ⟨s.span, s.current_index + 1⟩)) ∧
    (∀ hi : i < variants.length,
      decodeVariant variants s =
        ((variants.get ⟨i, hi⟩ ⟨s.span, s.current_index + 1⟩).1.map (fun a => (i, a)),
          (variants.get ⟨i, hi⟩ ⟨s.span, s.current_index + 1⟩).2)) ∧
    ((∀ (j : Nat) (hj : j < variants.length) (t : ScaleDecoderStream),
        (variants.get ⟨j, hj⟩ t).1 ≠ .error .WRONG_TYPE_INDEX) →
      ((decodeVariant variants s).1 = .error .WRONG_TYPE_INDEX ↔ variants.length ≤ i)) := by
  refine ⟨fun hge => ?_, fun hi => ?_, fun hno => ?_⟩
  · simp [decodeVariant, nextByte, h, Nat.not_lt.mpr hge]
  · rcases he : variants.get ⟨i, hi⟩ ⟨s.span, s.current_index + 1⟩ with ⟨r, s2⟩
    cases r <;> simp [decodeVariant, nextByte, h, hi, he, Except.map]
  · constructor
    · intro herr
      by_contra hge
      rw [Nat.not_le] at hge
      rcases he : variants.get ⟨i, hge⟩ ⟨s.span, s.current_index + 1⟩ with ⟨r, s2⟩
      cases r with
      | error e =>
        have heq : e = .WRONG_TYPE_INDEX := by
          simp [decodeVariant, nextByte, h, hge, he] at herr
          exact herr
        exact hno i hge ⟨s.span, s.current_index + 1⟩ (by rw [he]; simp [heq])
      | ok a => simp [decodeVariant, nextByte, h, hge, he] at herr
    · intro hge
      simp [decodeVariant, nextByte, h, Nat.not_lt.mpr hge]

/-- C4 witness: over two one-byte variants, index byte 1 decodes the second
variant's payload, and index byte 2 fails with `WRONG_TYPE_INDEX`. -/
theorem C4_witness :
    decodeVariant [nextByte, nextByte] ⟨[1, 7], 0⟩ = (.ok (1, 7), ⟨[1, 7], 2⟩) ∧
    decodeVariant [nextByte, nextByte] ⟨[2, 7], 0⟩
      = (.error .WRONG_TYPE_INDEX, ⟨[2, 7], 1⟩) := by
  constructor
  · have h := (C4_variant_index Nat [nextByte, nextByte] ⟨[1, 7], 0⟩ 1 rfl).2.1 (by decide)
    rw [h]; decide
  · exact (C4_variant_index Nat [nextByte, nextByte] ⟨[2, 7], 0⟩ 2 rfl).1 (by decide)

set_option maxRecDepth 4000 in
/-- On success the one-byte-element loop returns exactly the next `n` bytes
of the span in order and advances the cursor by `n`. -/
theorem decodeElems_nextByte_ok (n : Nat) :
    ∀ s : ScaleDecoderStream, n ≤ s.span.length - s.current_index →
      decodeElems nextByte n s =
        (.ok ((s.span.drop s.current_index).take n), ⟨s.span, s.current_index + n⟩) := by
  induction n with
  | zero => intro s _; simp [decodeElems]
  | succ n ih =>
    intro s hle
    have hidx : s.current_index < s.span.length := by omega
    have h1 : n ≤ s.span.length - (s.current_index + 1) := by omega
    have hrec := ih ⟨s.span, s.current_index + 1⟩ (by simpa using h1)
    simp only [decodeElems, nextByte, List.getElem?_eq_getElem hidx, hrec]
    rw [List.drop_eq_getElem_cons hidx]
    have harith : s.current_index + 1 + n = s.current_index + (n + 1) := by omega
    rw [harith, List.take_succ_cons]

/-- When fewer bytes remain than one-byte elements requested, the element
loop fails with `NOT_ENOUGH_DATA`. -/
theorem decodeElems_nextByte_err (n : Nat) :
    ∀ s : ScaleDecoderStream, s.span.length - s.current_index < n →
      (decodeElems nextByte n s).1 = .error .NOT_ENOUGH_DATA := by
  induction n with
  | zero => intro s h; omega
  | succ n ih =>
    intro s h
    by_cases hidx : s.current_index < s.span.length
    · have h1 : (⟨s.span, s.current_index + 1⟩ : ScaleDecoderStream).span.length -
          (⟨s.span, s.current_index + 1⟩ : ScaleDecoderStream).current_index < n := by
        simp; omega
      have hrec := ih ⟨s.span, s.current_index + 1⟩ h1
      rcases he : decodeElems nextByte n ⟨s.span, s.current_index + 1⟩ with ⟨r, s2⟩
      rw [he] at hrec
      simp at hrec
      cases r with
      | error e =>
        simp [decodeElems, nextByte, List.getElem?_eq_getElem hidx, he] at hrec ⊢
        exact hrec
      | ok as => simp at hrec
    · have hnone : s.span[s.current_index]? = none := by
        rw [List.getElem?_eq_none]
        omega
      simp [decodeElems, nextByte, hnone]

/-- C7: a fixed array of declared length `n` over one-byte elements carries
no length prefix: when at least `n` bytes remain, the decode returns exactly
the next `n` bytes of the span in index order and advances the cursor by
exactly `n`; when fewer remain, it fails with `NOT_ENOUGH_DATA`. -/
theorem C7_fixed_array (n : Nat) (s : ScaleDecoderStream) :
    (n ≤ s.span.length - s.current_index →
      decodeArray nextByte n s =
        (.ok ((s.span.drop s.current_index).take n), ⟨s.span, s.current_index + n⟩)) ∧
    (s.span.length - s.current_index < n →
      (decodeArray nextByte n s).1 = .error .NOT_ENOUGH_DATA) :=
  ⟨fun h => decodeElems_nextByte_ok n s h, fun h => decodeElems_nextByte_err n s h⟩

/-- C7 witness: a three-byte span decoded as a two-element array yields the
first two bytes; a two-element array over a one-byte span fails with
`NOT_ENOUGH_DATA`. -/
theorem C7_witness :
    decodeArray nextByte 2 ⟨[7, 8, 9], 0⟩ = (.ok [7, 8], ⟨[7, 8, 9], 2⟩) ∧
    (decodeArray nextByte 2 ⟨[7], 0⟩).1 = .error .NOT_ENOUGH_DATA := by
  constructor
  · have h := (C7_fixed_array 2 ⟨[7, 8, 9], 0⟩).1 (by decide)
    rw [h]; decide
  · exact (C7_fixed_array 2 ⟨[7], 0⟩).2 (by decide)

/-- The map element loop is the plain pair loop followed by a left fold of
`emplace` over the decoded pairs, in wire order. -/
theorem decodeMapElems_eq_foldl {κ ν : Type} [DecidableEq κ] (elem : Decoder (κ × ν)) :
    ∀ (n : Nat) (acc : List (κ × ν)) (s : ScaleDecoderStream),
      decodeMapElems elem n acc s =
        match decodeElems elem n s with
        | (.error e, s1) => (.error e, s1)
        | (.ok ps, s1) => (.ok (ps.foldl emplace acc), s1) := by
  intro n
  induction n with
  | zero => intro acc s; simp [decodeMapElems, decodeElems]
  | succ n ih =>
    intro acc s
    rcases he : elem s with ⟨r, s1⟩
    cases r with
    | error e => simp [decodeMapElems, decodeElems, he]
    | ok p =>
      rcases hrec : decodeElems elem n s1 with ⟨r2, s2⟩
      cases r2 with
      | error e => simp [decodeMapElems, decodeElems, he, hrec, ih]
      | ok ps => simp [decodeMapElems, decodeElems, he, hrec, ih]

/-- The binding visible after one `emplace`: an existing binding of the key
survives untouched; the new pair is visible only when its key was absent. -/
theorem mapLookup_emplace {κ ν : Type} [DecidableEq κ] (m : List (κ × ν)) (p : κ × ν)
    (k : κ) :
    mapLookup (emplace m p) k =
      match mapLookup m k with
      | some w => some w
      | none => if p.1 = k then some p.2 else none := by
  unfold emplace mapLookup
  by_cases hmem : m.any (fun q => q.1 = p.1)
  · rw [if_pos hmem]
    cases hl : m.find? (fun q => decide (q.1 = k)) with
    | some q => simp [hl]
    | none =>
      rcases List.any_eq_true.mp hmem with ⟨q, hq, hq1⟩
      have hq1' : q.1 = p.1 := by simpa using hq1
      have hnone := List.find?_eq_none.mp hl
      have hqk : ¬(q.1 = k) := by simpa using hnone q hq
      have hpk : ¬(p.1 = k) := fun hk => hqk (hq1'.trans hk)
      simp [hl, hpk]
  · rw [if_neg hmem]
    cases hl : m.find? (fun q => decide (q.1 = k)) with
    | some q => simp [List.find?_append, hl]
    | none =>
      by_cases hpk : p.1 = k
      · simp [List.find?_append, hl, hpk]
      · simp [List.find?_append, hl, hpk]

/-- Folding `emplace` over a pair list: each key ends bound to the value it
had in the accumulator, or else to the value of its first occurrence in the
list — later occurrences of a key never overwrite earlier ones. -/
theorem mapLookup_foldl_emplace {κ ν : Type} [DecidableEq κ] (ps : List (κ × ν)) :
    ∀ (acc : List (κ × ν)) (k : κ),
      mapLookup (ps.foldl emplace acc) k =
        match mapLookup acc k with
        | some w => some w
        | none => (ps.find? (fun p => p.1 = k)).map Prod.snd := by
  induction ps with
  | nil => intro acc k; cases h : mapLookup acc k <;> simp [h]
  | cons p ps ih =>
    intro acc k
    rw [List.foldl_cons, ih, mapLookup_emplace]
    cases hl : mapLookup acc k with
    | some w => simp
    | none =>
      by_cases hpk : p.1 = k
      · simp [hpk]
      · simp [hpk]

/-- C2 counterexample: the wire bytes `08 01 02 01 03` hold two pairs (1,2)
and (1,3) with equal keys; decoded as a map of one-byte keys to one-byte
values, key 1 is bound to 2 — the value of the first pair on the wire — so
the claim that the last pair wins is false at this input. -/
theorem C2_counterexample :
    decodeMapInto (decodePair nextByte nextByte) [] ⟨[8, 1, 2, 1, 3], 0⟩
      = (.ok (), [(1, 2)], ⟨[8, 1, 2, 1, 3], 5⟩) ∧
    mapLookup [((1 : Nat), (2 : Nat))] 1 ≠ some 3 := by decide

/-- C2 amended: when the wire holds two or more pairs with equal keys, the
decoded map binds each such key to the value of the FIRST pair with that
key on the wire — the container is the `emplace` fold of the decoded pairs,
and `emplace` inserts only when the key is absent, never overwriting. -/
theorem C2_map_duplicate_first_wins (κ ν : Type) [DecidableEq κ]
    (elem : Decoder (κ × ν)) (c ps : List (κ × ν))
    (n : Nat) (s s1 s2 : ScaleDecoderStream)
    (hn : decodeCompact s = (.ok n, s1))
    (hp : decodeElems elem n s1 = (.ok ps, s2)) :
    decodeMapInto elem c s = (.ok (), ps.foldl emplace [], s2) ∧
    ∀ k : κ, mapLookup (ps.foldl emplace []) k
      = (ps.find? (fun p => p.1 = k)).map Prod.snd := by
  constructor
  · simp [decodeMapInto, hn, decodeMapElems_eq_foldl, hp]
  · intro k
    have h := mapLookup_foldl_emplace ps [] k
    simpa [mapLookup] using h

/-- C2 witness: the amended statement at the counterexample wire bytes. -/
theorem C2_witness :
    decodeMapInto (decodePair nextByte nextByte) [] ⟨[8, 1, 2, 1, 3], 0⟩
      = (.ok (), [((1 : Nat), (2 : Nat)), (1, 3)].foldl emplace [], ⟨[8, 1, 2, 1, 3], 5⟩) ∧
    mapLookup ([((1 : Nat), (2 : Nat)), (1, 3)].foldl emplace []) 1
      = ([((1 : Nat), (2 : Nat)), (1, 3)].find? (fun p => p.1 = 1)).map Prod.snd := by
  have h := C2_map_duplicate_first_wins Nat Nat (decodePair nextByte nextByte) []
    [(1, 2), (1, 3)] 2 ⟨[8, 1, 2, 1, 3], 0⟩ ⟨[8, 1, 2, 1, 3], 1⟩ ⟨[8, 1, 2, 1, 3], 5⟩
    (by decide) (by decide)
  exact ⟨h.1, h.2 1⟩

/-- C10: every container decoder that length-checks or element-decodes into
a local container leaves the destination argument exactly as it was on any
failure — the local container is moved into the destination only after the
length and every element decoded successfully. -/
theorem C10_dest_unchanged_on_failure (α κ ν : Type) [DecidableEq κ]
    (elem : Decoder α) (pelem : Decoder (κ × ν)) (n : Nat)
    (v c : List α) (vb : List Bool) (m : List (κ × ν))
    (s : ScaleDecoderStream) (e : DecodeError) :
    ((decodeVectorLikeInto elem v s).1 = .error e →
      (decodeVectorLikeInto elem v s).2.1 = v) ∧
    ((decodeVectorBoolInto vb s).1 = .error e → (decodeVectorBoolInto vb s).2.1 = vb) ∧
    ((decodeMapInto pelem m s).1 = .error e → (decodeMapInto pelem m s).2.1 = m) ∧
    ((decodeStaticInto elem n c s).1 = .error e → (decodeStaticInto elem n c s).2.1 = c) := by
  refine ⟨?_, ?_, ?_, ?_⟩
  · rcases h1 : decodeCompact s with ⟨r1, s1⟩
    cases r1 with
    | error e1 => intro _; simp [decodeVectorLikeInto, h1]
    | ok cnt =>
      rcases h2 : decodeElems elem cnt s1 with ⟨r2, s2⟩
      cases r2 with
      | error e2 => intro _; simp [decodeVectorLikeInto, h1, h2]
      | ok xs => intro hc; simp [decodeVectorLikeInto, h1, h2] at hc
  · rcases h1 : decodeCompact s with ⟨r1, s1⟩
    cases r1 with
    | error e1 => intro _; simp [decodeVectorBoolInto, h1]
    | ok cnt =>
      rcases h2 : decodeElems decodeBool cnt s1 with ⟨r2, s2⟩
      cases r2 with
      | error e2 => intro _; simp [decodeVectorBoolInto, h1, h2]
      | ok xs => intro hc; simp [decodeVectorBoolInto, h1, h2] at hc
  · rcases h1 : decodeCompact s with ⟨r1, s1⟩
    cases r1 with
    | error e1 => intro _; simp [decodeMapInto, h1]
    | ok cnt =>
      rcases h2 : decodeMapElems pelem cnt [] s1 with ⟨r2, s2⟩
      cases r2 with
      | error e2 => intro _; simp [decodeMapInto, h1, h2]
      | ok xs => intro hc; simp [decodeMapInto, h1, h2] at hc
  · rcases h2 : decodeElems elem n s with ⟨r2, s2⟩
    cases r2 with
    | error e2 => intro _; simp [decodeStaticInto, h2]
    | ok xs => intro hc; simp [decodeStaticInto, h2] at hc

/-- C10 witness: at wire inputs that fail mid-decode, each of the four
container decoders hands back its destination unchanged. -/
theorem C10_witness :
    (decodeVectorLikeInto nextByte [9] ⟨[16, 1], 0⟩).2.1 = [9] ∧
    (decodeVectorBoolInto [true] ⟨[16, 1], 0⟩).2.1 = [true] ∧
    (decodeMapInto (decodePair nextByte nextByte) [(5, 5)] ⟨[16, 1], 0⟩).2.1
      = [((5 : Nat), (5 : Nat))] ∧
    (decodeStaticInto nextByte 2 [9] ⟨[16], 0⟩).2.1 = [9] := by
  have h1 := C10_dest_unchanged_on_failure Nat Nat Nat nextByte
    (decodePair nextByte nextByte) 2 [9] [9] [true] [(5, 5)] ⟨[16, 1], 0⟩ .NOT_ENOUGH_DATA
  have h2 := C10_dest_unchanged_on_failure Nat Nat Nat nextByte
    (decodePair nextByte nextByte) 2 [9] [9] [true] [(5, 5)] ⟨[16], 0⟩ .NOT_ENOUGH_DATA
  exact ⟨h1.1 (by decide), h1.2.1 (by decide), h1.2.2.1 (by decide),
    h2.2.2.2 (by decide)⟩

/-- Chaining two forward-only steps is forward-only. -/
theorem mono_trans {s s1 s2 : ScaleDecoderStream}
    (h1 : s1.span = s.span ∧ s.current_index ≤ s1.current_index)
    (h2 : s2.span = s1.span ∧ s1.current_index ≤ s2.current_index) :
    s2.span = s.span ∧ s.current_index ≤ s2.current_index :=
  ⟨h2.1.trans h1.1, h1.2.trans h2.2⟩

/-- The byte reader never mutates the span and never rewinds. -/
theorem cursorMonotone_nextByte : CursorMonotone nextByte := by
  intro s
  unfold nextByte
  cases h : s.span[s.current_index]? <;> simp

/-- Boolean decoding never mutates the span and never rewinds. -/
theorem cursorMonotone_decodeBool : CursorMonotone decodeBool := by
  intro s
  have hn := cursorMonotone_nextByte s
  unfold decodeBool
  rcases h : nextByte s with ⟨r, s1⟩
  rw [h] at hn
  cases r with
  | error e => exact hn
  | ok b =>
    dsimp only
    split_ifs <;> exact hn

/-- Optional-boolean decoding never mutates the span and never rewinds. -/
theorem cursorMonotone_decodeOptionalBool : CursorMonotone decodeOptionalBool := by
  intro s
  have hn := cursorMonotone_nextByte s
  unfold decodeOptionalBool
  rcases h : nextByte s with ⟨r, s1⟩
  rw [h] at hn
  cases r with
  | error e => exact hn
  | ok b =>
    dsimp only
    split_ifs <;> exact hn

/-- The little-endian multi-byte reader never mutates the span and never
rewinds. -/
theorem cursorMonotone_readBytesLE (n : Nat) : CursorMonotone (readBytesLE n) := by
  induction n with
  | zero => intro s; exact ⟨rfl, Nat.le_refl _⟩
  | succ n ih =>
    intro s
    have hn := cursorMonotone_nextByte s
    unfold readBytesLE
    rcases h : nextByte s with ⟨r, s1⟩
    rw [h] at hn
    cases r with
    | error e => exact hn
    | ok b =>
      dsimp only
      have hr := ih s1
      rcases h2 : readBytesLE n s1 with ⟨r2, s2⟩
      rw [h2] at hr
      cases r2 <;> exact mono_trans hn hr

/-- Compact-integer decoding never mutates the span and never rewinds. -/
theorem cursorMonotone_decodeCompact : CursorMonotone decodeCompact := by
  intro s
  have hn := cursorMonotone_nextByte s
  unfold decodeCompact
  rcases h : nextByte s with ⟨r, s1⟩
  rw [h] at hn
  cases r with
  | error e => exact hn
  | ok b =>
    dsimp only
    split_ifs with h0 h1 h2
    · exact hn
    · have hm := cursorMonotone_nextByte s1
      rcases hb : nextByte s1 with ⟨r2, s2⟩
      rw [hb] at hm
      cases r2 <;> exact mono_trans hn hm
    · have hm := cursorMonotone_readBytesLE 3 s1
      rcases hb : readBytesLE 3 s1 with ⟨r2, s2⟩
      rw [hb] at hm
      cases r2 <;> exact mono_trans hn hm
    · exact mono_trans hn (cursorMonotone_readBytesLE (b / 4 + 4) s1)

/-- The element loop of a forward-only element decoder never mutates the
span and never rewinds. -/
theorem cursorMonotone_decodeElems {α : Type} (elem : Decoder α)
    (helem : CursorMonotone elem) (n : Nat) : CursorMonotone (decodeElems elem n) := by
  induction n with
  | zero => intro s; exact ⟨rfl, Nat.le_refl _⟩
  | succ n ih =>
    intro s
    have h1 := helem s
    rcases he : elem s with ⟨r, s1⟩
    rw [he] at h1
    cases r with
    | error e => simp only [decodeElems, he]; exact h1
    | ok a =>
      have h2 := ih s1
      rcases hd : decodeElems elem n s1 with ⟨r2, s2⟩
      rw [hd] at h2
      simp only [decodeElems, he, hd]
      cases r2 <;> exact mono_trans h1 h2

/-- The map element loop of a forward-only pair decoder never mutates the
span and never rewinds. -/
theorem cursorMonotone_decodeMapElems {κ ν : Type} [DecidableEq κ]
    (elem : Decoder (κ × ν)) (helem : CursorMonotone elem) (n : Nat) :
    ∀ acc, CursorMonotone (decodeMapElems elem n acc) := by
  induction n with
  | zero => intro acc s; exact ⟨rfl, Nat.le_refl _⟩
  | succ n ih =>
    intro acc s
    have h1 := helem s
    rcases he : elem s with ⟨r, s1⟩
    rw [he] at h1
    cases r with
    | error e => simp only [decodeMapElems, he]; exact h1
    | ok p =>
      have h2 := ih (emplace acc p) s1
      simp only [decodeMapElems, he]
      exact mono_trans h1 h2

/-- Optional decoding of a forward-only payload never mutates the span and
never rewinds. -/
theorem cursorMonotone_decodeOptional {α : Type} (elem : Decoder α)
    (helem : CursorMonotone elem) : CursorMonotone (decodeOptional elem) := by
  intro s
  have h1 := cursorMonotone_decodeBool s
  unfold decodeOptional
  rcases hb : decodeBool s with ⟨r, s1⟩
  rw [hb] at h1
  cases r with
  | error e => exact h1
  | ok hv =>
    cases hv with
    | false => exact h1
    | true =>
      have hd := helem s1
      rcases hp : elem s1 with ⟨r2, s2⟩
      rw [hp] at hd
      dsimp only
      rw [if_pos rfl, hp]
      cases r2 <;> exact mono_trans h1 hd

/-- Variant decoding over forward-only payload decoders never mutates the
span and never rewinds. -/
theorem cursorMonotone_decodeVariant {α : Type} (variants : List (Decoder α))
    (h : ∀ d ∈ variants, CursorMonotone d) : CursorMonotone (decodeVariant variants) := by
  intro s
  have h1 := cursorMonotone_nextByte s
  unfold decodeVariant
  rcases hb : nextByte s with ⟨r, s1⟩
  rw [hb] at h1
  cases r with
  | error e => exact h1
  | ok i =>
    dsimp only
    rcases Nat.lt_or_ge i variants.length with hi | hi
    · have hmem : variants.get ⟨i, hi⟩ ∈ variants := List.get_mem variants i hi
      have hd := h _ hmem s1
      rcases hp : variants.get ⟨i, hi⟩ s1 with ⟨r2, s2⟩
      rw [hp] at hd
      rw [dif_pos hi, hp]
      cases r2 <;> exact mono_trans h1 hd
    · rw [dif_neg (Nat.not_lt.mpr hi)]
      exact h1

/-- The vector-like container decoder never mutates the span and never
rewinds, for any forward-only element decoder. -/
theorem cursorMonotoneInto_vectorLike {α : Type} (elem : Decoder α)
    (helem : CursorMonotone elem) : CursorMonotoneInto (decodeVectorLikeInto elem) := by
  intro v s
  have h1 := cursorMonotone_decodeCompact s
  rcases hc : decodeCompact s with ⟨r1, s1⟩
  rw [hc] at h1
  cases r1 with
  | error e => simp only [decodeVectorLikeInto, hc]; exact h1
  | ok cnt =>
    have h2 := cursorMonotone_decodeElems elem helem cnt s1
    rcases hd : decodeElems elem cnt s1 with ⟨r2, s2⟩
    rw [hd] at h2
    simp only [decodeVectorLikeInto, hc, hd]
    cases r2 <;> exact mono_trans h1 h2

/-- The `vector<bool>` decoder never mutates the span and never rewinds. -/
theorem cursorMonotoneInto_vectorBool : CursorMonotoneInto decodeVectorBoolInto := by
  intro v s
  have h1 := cursorMonotone_decodeCompact s
  rcases hc : decodeCompact s with ⟨r1, s1⟩
  rw [hc] at h1
  cases r1 with
  | error e => simp only [decodeVectorBoolInto, hc]; exact h1
  | ok cnt =>
    have h2 := cursorMonotone_decodeElems decodeBool cursorMonotone_decodeBool cnt s1
    rcases hd : decodeElems decodeBool cnt s1 with ⟨r2, s2⟩
    rw [hd] at h2
    simp only [decodeVectorBoolInto, hc, hd]
    cases r2 <;> exact mono_trans h1 h2

/-- The map decoder never mutates the span and never rewinds, for any
forward-only pair decoder. -/
theorem cursorMonotoneInto_map {κ ν : Type} [DecidableEq κ]
    (pelem : Decoder (κ × ν)) (hp : CursorMonotone pelem) :
    CursorMonotoneInto (decodeMapInto pelem) := by
  intro c s
  have h1 := cursorMonotone_decodeCompact s
  rcases hc : decodeCompact s with ⟨r1, s1⟩
  rw [hc] at h1
  cases r1 with
  | error e => simp only [decodeMapInto, hc]; exact h1
  | ok cnt =>
    have h2 := cursorMonotone_decodeMapElems pelem hp cnt [] s1
    rcases hd : decodeMapElems pelem cnt [] s1 with ⟨r2, s2⟩
    rw [hd] at h2
    simp only [decodeMapInto, hc, hd]
    cases r2 <;> exact mono_trans h1 h2

/-- The static-collection decoder never mutates the span and never rewinds,
for any forward-only element decoder. -/
theorem cursorMonotoneInto_static {α : Type} (elem : Decoder α)
    (helem : CursorMonotone elem) (n : Nat) :
    CursorMonotoneInto (decodeStaticInto elem n) := by
  intro c s
  have h2 := cursorMonotone_decodeElems elem helem n s
  rcases hd : decodeElems elem n s with ⟨r2, s2⟩
  rw [hd] at h2
  simp only [decodeStaticInto, hd]
  cases r2 <;> exact h2

/-- hasMore is true exactly when at least `n` bytes remain past the cursor
(for a cursor inside the span). -/
theorem hasMore_iff_remaining (s : ScaleDecoderStream) (n : Nat)
    (h : s.current_index ≤ s.span.length) :
    hasMore s n = true ↔ n ≤ s.span.length - s.current_index := by
  unfold hasMore
  rw [decide_eq_true_iff]
  omega

/-- C8: every decoding operation of the stream — the byte reader, the
boolean, optional-boolean and compact readers, the element loops, optional
and variant decoding over forward-only payloads, and the container
decoders — leaves the span unchanged and only ever advances the cursor,
on success and on failure alike; `hasMore` reports whether at least `n`
bytes remain and, being a plain function of the immutable state, moves
nothing. -/
theorem C8_cursor_monotone :
    CursorMonotone nextByte ∧
    CursorMonotone decodeBool ∧
    CursorMonotone decodeOptionalBool ∧
    CursorMonotone decodeCompact ∧
    (∀ (α : Type) (elem : Decoder α), CursorMonotone elem →
      (∀ n : Nat, CursorMonotone (decodeElems elem n)) ∧
      CursorMonotone (decodeOptional elem) ∧
      CursorMonotoneInto (decodeVectorLikeInto elem) ∧
      (∀ n : Nat, CursorMonotoneInto (decodeStaticInto elem n))) ∧
    (∀ (α : Type) (variants : List (Decoder α)),
      (∀ d ∈ variants, CursorMonotone d) → CursorMonotone (decodeVariant variants)) ∧
    (∀ (κ ν : Type) [DecidableEq κ] (pelem : Decoder (κ × ν)),
      CursorMonotone pelem → CursorMonotoneInto (decodeMapInto pelem)) ∧
    CursorMonotoneInto decodeVectorBoolInto ∧
    (∀ (s : ScaleDecoderStream) (n : Nat), s.current_index ≤ s.span.length →
      (hasMore s n = true ↔ n ≤ s.span.length - s.current_index)) := by
  refine ⟨cursorMonotone_nextByte, cursorMonotone_decodeBool,
    cursorMonotone_decodeOptionalBool, cursorMonotone_decodeCompact,
    fun α elem he => ⟨fun n => cursorMonotone_decodeElems elem he n,
      cursorMonotone_decodeOptional elem he,
      cursorMonotoneInto_vectorLike elem he,
      fun n => cursorMonotoneInto_static elem he n⟩,
    fun α variants h => cursorMonotone_decodeVariant variants h,
    ?_,
    cursorMonotoneInto_vectorBool,
    fun s n h => hasMore_iff_remaining s n h⟩
  intro κ ν instκ pelem hp
  exact cursorMonotoneInto_map pelem hp

/-- C8 witness: the contract instantiated at concrete streams — a two-byte
vector decode leaves the span intact and only advances the cursor, and
`hasMore` answers the remaining-byte question at the start of a two-byte
span. -/
theorem C8_witness :
    ((decodeElems nextByte 2 ⟨[5, 6], 0⟩).2.span = [5, 6] ∧
      0 ≤ (decodeElems nextByte 2 ⟨[5, 6], 0⟩).2.current_index) ∧
    ((decodeVectorLikeInto nextByte [] ⟨[4, 9], 0⟩).2.2.span = [4, 9] ∧
      0 ≤ (decodeVectorLikeInto nextByte [] ⟨[4, 9], 0⟩).2.2.current_index) ∧
    (hasMore ⟨[5, 6], 0⟩ 2 = true ↔ 2 ≤ 2) := by
  refine ⟨?_, ?_, ?_⟩
  · exact (C8_cursor_monotone.2.2.2.2.1 Nat nextByte C8_cursor_monotone.1).1 2 ⟨[5, 6], 0⟩
  · exact (C8_cursor_monotone.2.2.2.2.1 Nat nextByte
      C8_cursor_monotone.1).2.2.1 [] ⟨[4, 9], 0⟩
  · exact C8_cursor_monotone.2.2.2.2.2.2.2.2 ⟨[5, 6], 0⟩ 2 (by decide)

end Scale
